import Mathlib

/-!
Shallow embedding of the aggregation / ranking / growth-comparison engine of
the alchemy-dash dashboard, together with theorems settling the frozen claims.

Numbers are modelled as rationals (JS numbers on the integral values that
occur here behave exactly); dates are modelled as milliseconds since the Unix
epoch, as in the source (`Date.getTime()` arithmetic with `MS_PER_DAY`).
-/

namespace AlchemyDash

/-- Milliseconds per day, from the source: `24 * 60 * 60 * 1000`. -/
def MS_PER_DAY : ℚ := 24 * 60 * 60 * 1000

/-- Epoch-milliseconds of `new Date('2025-06-01')` (midnight UTC). -/
def dateStartMs : ℚ := 1748736000000

/-- Epoch-milliseconds of `new Date('2025-07-31')` (midnight UTC). -/
def dateEndMs : ℚ := 1753920000000

/-- JavaScript `Math.round`: rounds half toward positive infinity. -/
def jsRound (q : ℚ) : ℤ := ⌊q + 1 / 2⌋

/-- Source: `NUM_DAYS = Math.round((DATE_END.getTime() - DATE_START.getTime()) / MS_PER_DAY)`. -/
def NUM_DAYS : ℤ := jsRound ((dateEndMs - dateStartMs) / MS_PER_DAY)

/-! ## Growth comparator (part_000 lines 1317-1323) -/

/-- Source: `prevSum > 0 ? ((currSum - prevSum) / prevSum) * 100 : currSum > 0 ? 100 : 0`. -/
def compareGrowth (currSum prevSum : ℚ) : ℚ :=
  if 0 < prevSum then (currSum - prevSum) / prevSum * 100
  else if 0 < currSum then 100 else 0

/-! ## Prior comparison period (part_000 lines 1188-1193) -/

/-- Source: `const days = (new Date(endDate).getTime() - new Date(startDate).getTime()) / MS_PER_DAY`. -/
def daysBetween (startMs endMs : ℚ) : ℚ := (endMs - startMs) / MS_PER_DAY

/-- Source: `const prevEnd = new Date(new Date(startDate).getTime() - MS_PER_DAY)`. -/
def prevEnd (startMs : ℚ) : ℚ := startMs - MS_PER_DAY

/-- Source: `const prevStart = new Date(prevEnd.getTime() - days * MS_PER_DAY)`. -/
def prevStart (startMs endMs : ℚ) : ℚ :=
  prevEnd startMs - daysBetween startMs endMs * MS_PER_DAY

/-! ## Slider-value / date conversion (part_000 lines 26-29 and 720-730) -/

/-- Source (lines 721-722): `new Date(DATE_START.getTime() + value * MS_PER_DAY)`. -/
def sliderValueToDate (value : ℤ) : ℚ := dateStartMs + (value : ℚ) * MS_PER_DAY

/-- Modelled from the spec: the inverse conversion
`value = round((date - epoch) / 1 day)`; the source only contains the forward
conversion (lines 721-722) and applies the same rounding formula when
computing `NUM_DAYS` (line 29), but no standalone inverse mapper. -/
def dateToSliderValue (dateMs : ℚ) : ℤ := jsRound ((dateMs - dateStartMs) / MS_PER_DAY)

/-! ## Claims C3, C4, C9 -/

/-- C3: compareGrowth returns `(c - p) / p * 100` when `p > 0`, the sentinel 100 when
`p = 0 < c`, and 0 when both are 0; in particular `compareGrowth 150 100 = 50` and
`compareGrowth 50 100 = -50`. -/
theorem c3_compare_growth (c p : ℚ) (hc : 0 ≤ c) (hp : 0 ≤ p) :
    (0 < p → compareGrowth c p = (c - p) / p * 100) ∧
    (p = 0 → 0 < c → compareGrowth c p = 100) ∧
    (c = 0 → p = 0 → compareGrowth c p = 0) ∧
    compareGrowth 150 100 = 50 ∧ compareGrowth 50 100 = -50 := by
  refine ⟨fun h => by simp [compareGrowth, h], fun h h2 => ?_, fun h h2 => ?_, ?_, ?_⟩
  · simp [compareGrowth, h, h2]
  · simp [compareGrowth, h, h2]
  · norm_num [compareGrowth]
  · norm_num [compareGrowth]

/-- Witness for C3 at `c = 150`, `p = 100`. -/
theorem c3_compare_growth_witness :
    compareGrowth 150 100 = (150 - 100) / 100 * 100 ∧ compareGrowth 120 0 = 100 ∧
    compareGrowth 0 0 = 0 :=
  ⟨(c3_compare_growth 150 100 (by norm_num) (by norm_num)).1 (by norm_num),
   (c3_compare_growth 120 0 (by norm_num) (by norm_num)).2.1 rfl (by norm_num),
   (c3_compare_growth 0 0 le_rfl le_rfl).2.2.1 rfl rfl⟩

/-- C4: the prior period ends one day before the current period starts and has the
same length; the two periods are disjoint and contiguous. -/
theorem c4_prior_period (s e : ℚ) (h : s ≤ e) :
    prevEnd s = s - MS_PER_DAY ∧
    prevStart s e = prevEnd s - (e - s) ∧
    prevEnd s - prevStart s e = e - s ∧
    prevEnd s + MS_PER_DAY = s ∧
    prevEnd s < s := by
  have hms : MS_PER_DAY ≠ 0 := by norm_num [MS_PER_DAY]
  have hday : daysBetween s e * MS_PER_DAY = e - s := by
    rw [daysBetween, div_mul_cancel₀ _ hms]
  refine ⟨rfl, ?_, ?_, ?_, ?_⟩
  · rw [prevStart, hday]
  · rw [prevStart, hday]; ring
  · rw [prevEnd]; ring
  · rw [prevEnd]; norm_num [MS_PER_DAY]

/-- Witness for C4 at the full default range. -/
theorem c4_prior_period_witness :
    prevEnd dateStartMs + MS_PER_DAY = dateStartMs ∧
    prevEnd dateStartMs - prevStart dateStartMs dateEndMs = dateEndMs - dateStartMs :=
  ⟨(c4_prior_period dateStartMs dateEndMs (by norm_num [dateStartMs, dateEndMs])).2.2.2.1,
   (c4_prior_period dateStartMs dateEndMs (by norm_num [dateStartMs, dateEndMs])).2.2.1⟩

/-- The slider range covers exactly 60 days. -/
theorem num_days_eq : NUM_DAYS = 60 := by
  norm_num [NUM_DAYS, jsRound, dateStartMs, dateEndMs, MS_PER_DAY]

/-- C9: slider values and calendar dates round-trip in both directions over the
range `[0, NUM_DAYS]` (dates: `[epoch, epoch + NUM_DAYS days]`), both conversions
using the fixed epoch `DATE_START`. -/
theorem c9_roundtrip (v : ℤ) (hv0 : 0 ≤ v) (hv : v ≤ NUM_DAYS) :
    dateToSliderValue (sliderValueToDate v) = v ∧
    (∀ d : ℚ, (∃ k : ℤ, 0 ≤ k ∧ k ≤ NUM_DAYS ∧ d = dateStartMs + (k : ℚ) * MS_PER_DAY) →
      sliderValueToDate (dateToSliderValue d) = d) := by
  have hms : MS_PER_DAY ≠ 0 := by norm_num [MS_PER_DAY]
  have key : ∀ k : ℤ, dateToSliderValue (dateStartMs + (k : ℚ) * MS_PER_DAY) = k := by
    intro k
    have : (dateStartMs + (k : ℚ) * MS_PER_DAY - dateStartMs) / MS_PER_DAY = (k : ℚ) := by
      field_simp
    rw [dateToSliderValue, jsRound, this, Int.floor_eq_iff]
    constructor <;> linarith
  refine ⟨key v, fun d hd => ?_⟩
  obtain ⟨k, _, _, rfl⟩ := hd
  rw [key k, sliderValueToDate]

/-- Witness for C9 at `v = 17` and `d = epoch + 17 days`. -/
theorem c9_roundtrip_witness :
    dateToSliderValue (sliderValueToDate 17) = 17 ∧
    sliderValueToDate (dateToSliderValue (dateStartMs + (17 : ℚ) * MS_PER_DAY)) =
      dateStartMs + (17 : ℚ) * MS_PER_DAY := by
  have h := c9_roundtrip 17 (by norm_num) (by rw [num_days_eq]; norm_num)
  exact ⟨h.1, h.2 _ ⟨17, by norm_num, by rw [num_days_eq]; norm_num, rfl⟩⟩

/-! ## Cross-filter coordinator (part_000 lines 269-270, 1513-1518, 1545-1548, 1568-1573, 1600-1603) -/

/-- The two mutually exclusive growth-card selections; both start as the empty string. -/
structure FilterState where
  filteredByCategory : String
  filteredByCountry : String
deriving DecidableEq, Repr

/-- Operations on the cross-filter state: growth-card clicks (carrying the
currently displayed fastest-growing name) and the two explicit clear buttons. -/
inductive FilterOp where
  | clickCategoryCard (fastest : String)
  | clickCountryCard (fastest : String)
  | clearCategoryFilter
  | clearCountryFilter
deriving DecidableEq, Repr

/-- Source handlers: the category card runs
`if (fastestGrowingCategory) { setFilteredByCategory(fastestGrowingCategory); setFilteredByCountry('') }`
(empty string is falsy, so a click with no fastest value is a no-op), symmetrically
for the country card; the clear buttons set just their own selection to `''`. -/
def applyFilterOp (st : FilterState) : FilterOp → FilterState
  | .clickCategoryCard f => if f = "" then st else ⟨f, ""⟩
  | .clickCountryCard f => if f = "" then st else ⟨"", f⟩
  | .clearCategoryFilter => ⟨"", st.filteredByCountry⟩
  | .clearCountryFilter => ⟨st.filteredByCategory, ""⟩

/-- Initial state: `useState<string>('')` for both selections. -/
def initFilter : FilterState := ⟨"", ""⟩

/-- Runs a sequence of filter operations from the initial empty state. -/
def runFilterOps (ops : List FilterOp) : FilterState :=
  ops.foldl applyFilterOp initFilter

/-- At most one of the two selections is set (non-empty). -/
def FilterMutex (st : FilterState) : Prop :=
  st.filteredByCategory = "" ∨ st.filteredByCountry = ""

theorem filterMutex_step (st : FilterState) (op : FilterOp) (h : FilterMutex st) :
    FilterMutex (applyFilterOp st op) := by
  cases op with
  | clickCategoryCard f =>
      by_cases hf : f = ""
      · simpa [applyFilterOp, hf] using h
      · simp [applyFilterOp, hf, FilterMutex]
  | clickCountryCard f =>
      by_cases hf : f = ""
      · simpa [applyFilterOp, hf] using h
      · simp [applyFilterOp, hf, FilterMutex]
  | clearCategoryFilter => exact Or.inl rfl
  | clearCountryFilter => exact Or.inr rfl

/-- C5: after any sequence of growth-card clicks and clear operations from the
initial empty state, at most one cross-filter selection is set; setting one
selection clears the other, and explicitly clearing one leaves the other
unchanged. -/
theorem c5_cross_filter_mutex :
    (∀ ops : List FilterOp, FilterMutex (runFilterOps ops)) ∧
    (∀ (st : FilterState) (f : String), f ≠ "" →
      applyFilterOp st (.clickCategoryCard f) = ⟨f, ""⟩ ∧
      applyFilterOp st (.clickCountryCard f) = ⟨"", f⟩) ∧
    (∀ st : FilterState,
      (applyFilterOp st .clearCategoryFilter).filteredByCountry = st.filteredByCountry ∧
      (applyFilterOp st .clearCountryFilter).filteredByCategory = st.filteredByCategory) := by
  refine ⟨fun ops => ?_, fun st f hf => ⟨by simp [applyFilterOp, hf], by simp [applyFilterOp, hf]⟩,
    fun st => ⟨rfl, rfl⟩⟩
  rw [runFilterOps]
  have : FilterMutex initFilter := Or.inl rfl
  generalize initFilter = st at this ⊢
  induction ops generalizing st with
  | nil => exact this
  | cons op t ih => exact ih _ (filterMutex_step st op this)

/-- Witness for C5 at a concrete operation sequence and concrete states. -/
theorem c5_cross_filter_mutex_witness :
    FilterMutex (runFilterOps [.clickCategoryCard "defi", .clickCountryCard "US",
      .clearCountryFilter]) ∧
    applyFilterOp ⟨"", "US"⟩ (.clickCategoryCard "defi") = ⟨"defi", ""⟩ ∧
    (applyFilterOp ⟨"defi", ""⟩ .clearCategoryFilter).filteredByCountry = "" :=
  ⟨c5_cross_filter_mutex.1 _,
   (c5_cross_filter_mutex.2.1 ⟨"", "US"⟩ "defi" (by decide)).1,
   (c5_cross_filter_mutex.2.2 ⟨"defi", ""⟩).1⟩

/-! ## Dual-thumb range slider (src/app/v2/page.tsx lines 46-144) -/

/-- Configuration of the `RangeSlider` component: closed interval bounds,
keyboard step, and the minimum gap kept between the two thumbs. -/
structure SliderCfg where
  minV : ℚ
  maxV : ℚ
  step : ℚ
  minGap : ℚ
deriving DecidableEq, Repr

/-- The two thumb positions. -/
structure SliderState where
  left : ℚ
  right : ℚ
deriving DecidableEq, Repr

/-- Source: `const clamp = (v, lo, hi) => Math.min(hi, Math.max(lo, v))`. -/
def clamp (v lo hi : ℚ) : ℚ := min hi (max lo v)

/-- Source: `const snap = (v) => Math.round(v / step) * step`. -/
def snap (cfg : SliderCfg) (v : ℚ) : ℚ := (jsRound (v / cfg.step) : ℚ) * cfg.step

/-- Source (handlePointerMove, left thumb): `setLeft(clamp(v, min, right - minGap))`. -/
def setLeftClamped (cfg : SliderCfg) (st : SliderState) (v : ℚ) : SliderState :=
  ⟨clamp v cfg.minV (st.right - cfg.minGap), st.right⟩

/-- Source (handlePointerMove, right thumb): `setRight(clamp(v, left + minGap, max))`. -/
def setRightClamped (cfg : SliderCfg) (st : SliderState) (v : ℚ) : SliderState :=
  ⟨st.left, clamp v (st.left + cfg.minGap) cfg.maxV⟩

/-- Which thumb an operation addresses. -/
inductive Thumb where
  | left
  | right
deriving DecidableEq, Repr

/-- Keyboard keys handled by `onKeyDown`. -/
inductive SliderKey where
  | arrowLeft
  | arrowRight
  | pageDown
  | pageUp
  | homeKey
  | endKey
deriving DecidableEq, Repr

/-- Source (onKeyDown switch): the requested value before snapping and clamping. -/
def keyNext (cfg : SliderCfg) (st : SliderState) (t : Thumb) (k : SliderKey) : ℚ :=
  let base := match t with
    | .left => st.left
    | .right => st.right
  match k with
  | .arrowLeft => base - cfg.step
  | .arrowRight => base + cfg.step
  | .pageDown => base - cfg.step * 10
  | .pageUp => base + cfg.step * 10
  | .homeKey => match t with
    | .left => cfg.minV
    | .right => st.left + cfg.minGap
  | .endKey => match t with
    | .left => st.right - cfg.minGap
    | .right => cfg.maxV

/-- A single update of the slider: a pointer drag of one thumb (carrying the raw
track-relative value, which `clientXToValue` snaps and clamps to `[min, max]`),
a keyboard step, or a click on the track (which moves the numerically nearer thumb). -/
inductive SliderOp where
  | pointerMove (t : Thumb) (raw : ℚ)
  | keyDown (t : Thumb) (k : SliderKey)
  | trackClick (raw : ℚ)
deriving DecidableEq, Repr

/-- Applies one slider operation, following the source handlers: `clientXToValue`
returns `snap(clamp(raw, min, max))`; pointer moves and key presses then clamp the
addressed thumb against the other one; a track click compares `Math.abs(v - left)`
with `Math.abs(v - right)` and moves the nearer thumb. -/
def applySliderOp (cfg : SliderCfg) (st : SliderState) : SliderOp → SliderState
  | .pointerMove t raw =>
      let v := snap cfg (clamp raw cfg.minV cfg.maxV)
      match t with
      | .left => setLeftClamped cfg st v
      | .right => setRightClamped cfg st v
  | .keyDown t k =>
      let v := snap cfg (keyNext cfg st t k)
      match t with
      | .left => setLeftClamped cfg st v
      | .right => setRightClamped cfg st v
  | .trackClick raw =>
      let v := snap cfg (clamp raw cfg.minV cfg.maxV)
      if |v - st.left| ≤ |v - st.right| then setLeftClamped cfg st v
      else setRightClamped cfg st v

/-- The slider invariant: both thumbs in range and separated by at least `minGap`. -/
def SliderInv (cfg : SliderCfg) (st : SliderState) : Prop :=
  cfg.minV ≤ st.left ∧ st.left + cfg.minGap ≤ st.right ∧ st.right ≤ cfg.maxV

theorem clamp_le_hi (v lo hi : ℚ) : clamp v lo hi ≤ hi := min_le_left _ _

theorem lo_le_clamp (v lo hi : ℚ) (h : lo ≤ hi) : lo ≤ clamp v lo hi :=
  le_min h (le_max_left _ _)

theorem sliderInv_setLeft (cfg : SliderCfg) (st : SliderState) (v : ℚ)
    (hst : SliderInv cfg st) : SliderInv cfg (setLeftClamped cfg st v) := by
  obtain ⟨h1, h2, h3⟩ := hst
  have hlo : cfg.minV ≤ st.right - cfg.minGap := by linarith
  refine ⟨lo_le_clamp _ _ _ hlo, ?_, h3⟩
  have := clamp_le_hi v cfg.minV (st.right - cfg.minGap)
  simpa [setLeftClamped] using by linarith

theorem sliderInv_setRight (cfg : SliderCfg) (st : SliderState) (v : ℚ)
    (hst : SliderInv cfg st) : SliderInv cfg (setRightClamped cfg st v) := by
  obtain ⟨h1, h2, h3⟩ := hst
  have hhi : st.left + cfg.minGap ≤ cfg.maxV := by linarith
  exact ⟨h1, lo_le_clamp _ _ _ hhi, clamp_le_hi _ _ _⟩

theorem sliderInv_step (cfg : SliderCfg) (st : SliderState) (op : SliderOp)
    (hst : SliderInv cfg st) : SliderInv cfg (applySliderOp cfg st op) := by
  cases op with
  | pointerMove t raw =>
      cases t
      · exact sliderInv_setLeft cfg st _ hst
      · exact sliderInv_setRight cfg st _ hst
  | keyDown t k =>
      cases t
      · exact sliderInv_setLeft cfg st _ hst
      · exact sliderInv_setRight cfg st _ hst
  | trackClick raw =>
      rw [applySliderOp]
      split
      · exact sliderInv_setLeft cfg st _ hst
      · exact sliderInv_setRight cfg st _ hst

/-- C6: for any `minGap ≥ 0`, from any state satisfying the slider invariant,
any sequence of pointer drags, keyboard steps and track clicks ends in a state
that still satisfies `left + minGap ≤ right` with both thumbs inside `[min, max]`. -/
theorem c6_slider_invariant (cfg : SliderCfg) (st : SliderState) (ops : List SliderOp)
    (hgap : 0 ≤ cfg.minGap) (hst : SliderInv cfg st) :
    SliderInv cfg (ops.foldl (applySliderOp cfg) st) ∧
    cfg.minV ≤ (ops.foldl (applySliderOp cfg) st).left ∧
    (ops.foldl (applySliderOp cfg) st).left ≤ (ops.foldl (applySliderOp cfg) st).right ∧
    (ops.foldl (applySliderOp cfg) st).right ≤ cfg.maxV := by
  have main : SliderInv cfg (ops.foldl (applySliderOp cfg) st) := by
    induction ops generalizing st with
    | nil => exact hst
    | cons op t ih => exact ih _ (sliderInv_step cfg st op hst)
  obtain ⟨h1, h2, h3⟩ := main
  exact ⟨⟨h1, h2, h3⟩, h1, by linarith, h3⟩

/-- Witness for C6: a drag, a key press and a track click on the default config. -/
theorem c6_slider_invariant_witness :
    SliderInv ⟨0, 100, 1, 0⟩
      ([SliderOp.pointerMove .left 250, SliderOp.keyDown .right .pageDown,
        SliderOp.trackClick 3].foldl (applySliderOp ⟨0, 100, 1, 0⟩) ⟨20, 80⟩) :=
  (c6_slider_invariant ⟨0, 100, 1, 0⟩ ⟨20, 80⟩ _ (by norm_num)
    ⟨by norm_num, by norm_num, by norm_num⟩).1

/-! ## The dual sliders of part_000 (DualRangeSlider lines 92-104, Dashboard range inputs lines 1465-1487) -/

/-- Source: `const newStart = parseInt(e.target.value); if (newStart < endValue) onStartChange(newStart)`
(same shape in the Dashboard start-range input, line 1467 with `sliderValue` as the end
thumb). The start thumb keeps its previous position when the request is not strictly
below the end thumb. -/
def handleStartChange (startValue endValue newStart : ℚ) : ℚ :=
  if newStart < endValue then newStart else startValue

/-- Source: `const newEnd = parseInt(e.target.value); if (newEnd > startValue) onEndChange(newEnd)`. -/
def handleEndChange (startValue endValue newEnd : ℚ) : ℚ :=
  if startValue < newEnd then newEnd else endValue

/-- C7 counterexample: in the part_000 dual sliders, dragging the start thumb from 50
to 60 while the end thumb sits at 60 is rejected — the thumb stays at its previous
position 50 instead of landing at the boundary 59 = 60 - 1. -/
theorem c7_counterexample :
    handleStartChange 50 60 60 = 50 ∧ (50 : ℚ) ≠ 60 - 1 := by
  norm_num [handleStartChange]

/-- C7 (amended): the v2 RangeSlider clamps an invariant-violating thumb update
exactly to the boundary (`left = right - minGap`, `right = left + minGap`), e.g.
for min=0, max=60, minGap=1 and the right thumb at 60 a drag of the left thumb to 60
lands at 59; the part_000 dual sliders instead reject such an update, leaving the
moving thumb at its previous position (which also never crosses the other thumb). -/
theorem c7_clamp_amended :
    (∀ (cfg : SliderCfg) (st : SliderState) (v : ℚ), SliderInv cfg st →
      st.right - cfg.minGap < v →
      (setLeftClamped cfg st v).left = st.right - cfg.minGap) ∧
    (∀ (cfg : SliderCfg) (st : SliderState) (v : ℚ), SliderInv cfg st →
      v < st.left + cfg.minGap →
      (setRightClamped cfg st v).right = st.left + cfg.minGap) ∧
    applySliderOp ⟨0, 60, 1, 1⟩ ⟨50, 60⟩ (.pointerMove .left 60) = ⟨59, 60⟩ ∧
    (∀ s e v : ℚ, e ≤ v → handleStartChange s e v = s) ∧
    (∀ s e v : ℚ, v ≤ s → handleEndChange s e v = e) := by
  refine ⟨fun cfg st v hst hv => ?_, fun cfg st v hst hv => ?_, ?_, ?_, ?_⟩
  · obtain ⟨h1, h2, _⟩ := hst
    have hmax : max cfg.minV v = v := max_eq_right (by linarith)
    simp [setLeftClamped, clamp, hmax, min_eq_left hv.le]
  · obtain ⟨_, h2, h3⟩ := hst
    have hmax : max (st.left + cfg.minGap) v = st.left + cfg.minGap :=
      max_eq_left (by linarith)
    simp [setRightClamped, clamp, hmax, min_eq_right (by linarith : st.left + cfg.minGap ≤ cfg.maxV)]
  · norm_num [applySliderOp, snap, clamp, jsRound, setLeftClamped]
  · intro s e v hv
    simp [handleStartChange, not_lt.mpr hv]
  · intro s e v hv
    simp [handleEndChange, not_lt.mpr hv]

/-- Witness for C7 (amended) at the spec's example values. -/
theorem c7_clamp_amended_witness :
    (setLeftClamped ⟨0, 60, 1, 1⟩ ⟨50, 60⟩ 60).left = 60 - 1 ∧
    handleStartChange 50 60 60 = 50 :=
  ⟨c7_clamp_amended.1 ⟨0, 60, 1, 1⟩ ⟨50, 60⟩ 60
      ⟨by norm_num, by norm_num, by norm_num⟩ (by norm_num),
   c7_clamp_amended.2.2.2.1 50 60 60 (by norm_num)⟩

/-! ## Competitive ranker (part_000 lines 603-620 and 681-701) -/

/-- JavaScript `String.prototype.toLowerCase()`, modelled as per-character
lowercasing over the string's character list. -/
def lowerStr (s : String) : String := ⟨s.data.map Char.toLower⟩

/-- The values of a peer map, in insertion order. -/
def peerValues (m : List (String × ℚ)) : List ℚ := m.map Prod.snd

/-- Source: `Object.entries(chains).forEach(([dbChain, users]) => { if (dbChain.toLowerCase() === normalizedChain) selectedChainUsers = users })`,
starting from `let selectedChainUsers = 0`; the last case-insensitive match wins. -/
def resolveSubject (m : List (String × ℚ)) (subject : String) : ℚ :=
  m.foldl (fun acc kv => if lowerStr kv.1 == lowerStr subject then kv.2 else acc) 0

/-- Source: `Object.values(chains).sort((a, b) => b - a)` — values sorted descending. -/
def sortDesc (l : List ℚ) : List ℚ := l.insertionSort (· ≥ ·)

/-- Source rank loop: `for (...) { if (allUserCounts[i] > selectedChainUsers) rank++; else break; }` —
the length of the strictly-greater prefix of the descending list. -/
def rankLoop : List ℚ → ℚ → ℕ
  | [], _ => 0
  | v :: t, s => if s < v then 1 + rankLoop t s else 0

/-- The competitive rank computed by `fetchCountryData` / `fetchCategoryData`:
`rank = 1` plus the strictly-greater prefix of the descending value list. -/
def rankOf (m : List (String × ℚ)) (subject : String) : ℕ :=
  1 + rankLoop (sortDesc (peerValues m)) (resolveSubject m subject)

theorem rankLoop_sorted_eq (l : List ℚ) (s : ℚ) (h : l.Sorted (· ≥ ·)) :
    rankLoop l s = l.countP (fun v => decide (s < v)) := by
  induction l with
  | nil => rfl
  | cons v t ih =>
      rw [List.sorted_cons] at h
      rw [rankLoop, List.countP_cons]
      by_cases hv : s < v
      · rw [if_pos hv, if_pos (by simpa using hv), ih h.2]
        omega
      · rw [if_neg hv, if_neg (by simpa using hv), List.countP_eq_zero.2]
        intro x hx
        have : x ≤ v := h.1 x hx
        simp only [decide_eq_true_eq]
        push_neg at hv
        exact not_lt.mpr (this.trans hv)

theorem sortDesc_sorted (l : List ℚ) : (sortDesc l).Sorted (· ≥ ·) :=
  List.sorted_insertionSort _ l

theorem resolveSubject_no_match (m : List (String × ℚ)) (subject : String)
    (h : ∀ kv ∈ m, lowerStr kv.1 ≠ lowerStr subject) :
    resolveSubject m subject = 0 := by
  rw [resolveSubject]
  have : ∀ (acc : ℚ), m.foldl
      (fun acc kv => if lowerStr kv.1 == lowerStr subject then kv.2 else acc) acc = acc := by
    induction m with
    | nil => intro acc; rfl
    | cons kv t ih =>
        intro acc
        rw [List.foldl_cons, if_neg]
        · exact ih (fun x hx => h x (List.mem_cons_of_mem kv hx)) acc
        · simpa using h kv (List.mem_cons_self kv t)
  exact this 0

/-- C2: the computed competitive rank equals one plus the number of peer values
strictly greater than the subject's case-insensitively resolved value; an absent
subject resolves to 0; equal resolved values share the same rank number; an empty
peer map yields rank 1. -/
theorem c2_rank_dense (m : List (String × ℚ)) (subject : String) :
    rankOf m subject
      = 1 + (peerValues m).countP (fun v => decide (resolveSubject m subject < v)) ∧
    ((∀ kv ∈ m, lowerStr kv.1 ≠ lowerStr subject) → resolveSubject m subject = 0) ∧
    (∀ s2 : String, resolveSubject m subject = resolveSubject m s2 →
      rankOf m subject = rankOf m s2) ∧
    rankOf [] subject = 1 := by
  refine ⟨?_, resolveSubject_no_match m subject, fun s2 h => by rw [rankOf, rankOf, h], rfl⟩
  rw [rankOf, rankLoop_sorted_eq _ _ (sortDesc_sorted _), sortDesc,
    (List.perm_insertionSort (· ≥ ·) (peerValues m)).countP_eq]

/-- Witness for C2 at a concrete peer map with no case-insensitive match. -/
theorem c2_rank_dense_witness :
    rankOf [("Alpha", 5), ("beta", 2)] "gamma"
      = 1 + (peerValues [("Alpha", 5), ("beta", 2)]).countP
          (fun v => decide (resolveSubject [("Alpha", 5), ("beta", 2)] "gamma" < v)) ∧
    resolveSubject [("Alpha", 5), ("beta", 2)] "gamma" = 0 ∧
    rankOf [] "ethereum" = 1 :=
  ⟨(c2_rank_dense [("Alpha", 5), ("beta", 2)] "gamma").1,
   (c2_rank_dense [("Alpha", 5), ("beta", 2)] "gamma").2.1 (by decide),
   (c2_rank_dense [] "ethereum").2.2.2⟩

/-! ## Global "rank within all chains" (part_000 lines 2075-2092) -/

/-- JS object lookup `m[k]` on an association list: the first entry with the key. -/
def lookupV (m : List (String × ℚ)) (k : String) : Option ℚ :=
  (m.find? (fun kv => kv.1 == k)).map Prod.snd

/-- Source: `const found = Object.keys(chainTotals).find(k => k.toLowerCase() === chain.toLowerCase()); currentChainKey = found || chain; const currentTotal = chainTotals[currentChainKey] || 0;`
then `rank = '-'` unless `currentChainKey in chainTotals`, in which case a total of 0
ranks at `sortedTotals.length` and otherwise at `1 + sortedTotals.filter(val => val > currentTotal).length`.
The `'-'` display value is modelled as `none`. -/
def globalRank (chainTotals : List (String × ℚ)) (chain : String) : Option ℕ :=
  let keyO := (chainTotals.map Prod.fst).find? (fun k => lowerStr k == lowerStr chain)
  let currentChainKey := keyO.getD chain
  let currentTotal := (lookupV chainTotals currentChainKey).getD 0
  if (lookupV chainTotals currentChainKey).isSome then
    some (if currentTotal = 0 then chainTotals.length
      else 1 + ((sortDesc (chainTotals.map Prod.snd)).filter
        (fun v => decide (currentTotal < v))).length)
  else none

/-- C8 counterexample: a subject with no representation at all in the peer data gets
the undefined rank display `'-'` (modelled `none`), not the defined rank
`peer_count = 1` the claim requires. -/
theorem c8_counterexample :
    globalRank [("other", 5)] "eth" = none ∧
    (none : Option ℕ) ≠ some ([(("other" : String), (5 : ℚ))].length) := by
  constructor
  · rfl
  · decide

/-- C8 (amended): when the subject chain resolves case-insensitively to a key whose
total is 0, the reported global rank equals the number of peers (`peer_count`); but
when the subject has no representation at all in the peer data, the code reports the
undefined rank `'-'` (`none`), not `peer_count`. -/
theorem c8_zero_total_rank (m : List (String × ℚ)) (c : String) :
    (∀ key : String,
      (m.map Prod.fst).find? (fun k => lowerStr k == lowerStr c) = some key →
      lookupV m key = some 0 → globalRank m c = some m.length) ∧
    ((m.map Prod.fst).find? (fun k => lowerStr k == lowerStr c) = none →
      globalRank m c = none) := by
  constructor
  · intro key hkey hlook
    rw [globalRank]
    simp only [hkey, Option.getD_some, hlook, Option.isSome_some, if_true,
      Option.getD_some, if_pos rfl]
  · intro hkey
    have hlook : lookupV m c = none := by
      rw [lookupV, Option.map_eq_none', List.find?_eq_none]
      intro kv hkv hbeq
      have hk : kv.1 = c := by simpa using hbeq
      have := List.find?_eq_none.1 hkey kv.1 (List.mem_map_of_mem Prod.fst hkv)
      rw [hk] at this
      simp at this
    rw [globalRank]
    simp only [hkey, Option.getD_none, hlook, Option.isSome_none, Bool.false_eq_true,
      if_false]

/-- Witness for C8 (amended): a present zero-total subject ranks at `peer_count`;
an absent subject gets `none`. -/
theorem c8_zero_total_rank_witness :
    globalRank [("Eth", 0), ("btc", 7)] "eth" = some 2 ∧
    globalRank [("btc", 7)] "eth" = none :=
  ⟨(c8_zero_total_rank [("Eth", 0), ("btc", 7)] "eth").1 "Eth" (by decide) (by decide),
   (c8_zero_total_rank [("btc", 7)] "eth").2 (by decide)⟩

/-! ## Fastest-growing category / country selection (part_000 lines 1231-1254 and 1277-1300) -/

/-- JS comparison `x > g` where `g` starts as `-Infinity`: `none` models `-Infinity`. -/
def gtOpt (x : ℚ) : Option ℚ → Bool
  | none => true
  | some y => decide (y < x)

/-- JS lookup-with-default `m[k] || 0` on an association list. -/
def lookupD (m : List (String × ℚ)) (k : String) : ℚ :=
  ((m.find? (fun kv => kv.1 == k)).map Prod.snd).getD 0

/-- One iteration of the source loop over `Object.keys(currCategoryTotals)`:
`prevTotal > 0` gives `growthRate = ((currTotal - prevTotal) / prevTotal) * 100` and
updates the running maximum when strictly greater; otherwise `currTotal > 0` competes
with the fixed rate 100; otherwise the candidate is skipped. The running state is the
pair (fastest name, best growth so far), starting at `('', -Infinity)`. Folding over
the entries of the current-period totals is exact because a JS object's keys are
unique and `currTotals[k]` is the entry's value. -/
def fastStep (prevTotals : List (String × ℚ)) (st : String × Option ℚ)
    (kv : String × ℚ) : String × Option ℚ :=
  if 0 < lookupD prevTotals kv.1 then
    if gtOpt ((kv.2 - lookupD prevTotals kv.1) / lookupD prevTotals kv.1 * 100) st.2 then
      (kv.1, some ((kv.2 - lookupD prevTotals kv.1) / lookupD prevTotals kv.1 * 100))
    else st
  else if 0 < kv.2 then
    if gtOpt 100 st.2 then (kv.1, some 100) else st
  else st

/-- The fastest-growing selection: a fold of `fastStep` over the current-period
totals, starting from the empty name and `-Infinity` growth. -/
def selectFastest (currTotals prevTotals : List (String × ℚ)) : String × Option ℚ :=
  currTotals.foldl (fastStep prevTotals) ("", none)

theorem fastStep_cases (prev : List (String × ℚ)) (st : String × Option ℚ)
    (kv : String × ℚ) :
    fastStep prev st kv = st ∨
    ((fastStep prev st kv).1 = kv.1 ∧ ((fastStep prev st kv).2).isSome ∧
      (0 < lookupD prev kv.1 ∨ 0 < kv.2)) := by
  rw [fastStep]
  split_ifs with h1 h2 h3 h4
  · exact Or.inr ⟨rfl, rfl, Or.inl h1⟩
  · exact Or.inl rfl
  · exact Or.inr ⟨rfl, rfl, Or.inr h3⟩
  · exact Or.inl rfl
  · exact Or.inl rfl

theorem selectFold_cases (prev l : List (String × ℚ)) (st : String × Option ℚ) :
    l.foldl (fastStep prev) st = st ∨
    ∃ kv ∈ l, (l.foldl (fastStep prev) st).1 = kv.1 ∧
      ((l.foldl (fastStep prev) st).2).isSome ∧
      (0 < lookupD prev kv.1 ∨ 0 < kv.2) := by
  induction l generalizing st with
  | nil => exact Or.inl rfl
  | cons kv t ih =>
      rw [List.foldl_cons]
      rcases fastStep_cases prev st kv with h | h
      · rw [h]
        rcases ih st with h2 | ⟨kv2, hkv2, h2⟩
        · exact Or.inl h2
        · exact Or.inr ⟨kv2, List.mem_cons_of_mem kv hkv2, h2⟩
      · rcases ih (fastStep prev st kv) with h2 | ⟨kv2, hkv2, h2⟩
        · rw [h2]
          exact Or.inr ⟨kv, List.mem_cons_self kv t, h⟩
        · exact Or.inr ⟨kv2, List.mem_cons_of_mem kv hkv2, h2⟩

/-- C10: the fastest-growing selection considers only keys of the current-period
totals, and a selected candidate always has current total > 0 or prior total > 0 —
so a candidate with both totals 0 (or with prior data but no current-period rows) is
never selected; when no candidate qualifies, the result is the empty name with the
`-Infinity` (`none`) growth, not 0. -/
theorem c10_fastest_selection (curr prev : List (String × ℚ)) :
    (selectFastest curr prev = ("", none) ∨
      ∃ kv ∈ curr, (selectFastest curr prev).1 = kv.1 ∧
        ((selectFastest curr prev).2).isSome ∧
        (0 < lookupD prev kv.1 ∨ 0 < kv.2)) ∧
    ((∀ kv ∈ curr, ¬ 0 < kv.2 ∧ ¬ 0 < lookupD prev kv.1) →
      selectFastest curr prev = ("", none)) := by
  constructor
  · exact selectFold_cases prev curr ("", none)
  · intro h
    rw [selectFastest]
    induction curr with
    | nil => rfl
    | cons kv t ih =>
        rw [List.foldl_cons, fastStep, if_neg (h kv (List.mem_cons_self kv t)).2,
          if_neg (h kv (List.mem_cons_self kv t)).1]
        exact ih (fun x hx => h x (List.mem_cons_of_mem kv hx))

/-- Witness for C10: a current-period candidate with zero totals in both periods is
not selected and the result stays at the empty name with `-Infinity` growth. -/
theorem c10_fastest_selection_witness :
    selectFastest [("defi", 0)] [("nft", 3)] = ("", none) :=
  (c10_fastest_selection [("defi", 0)] [("nft", 3)]).2 (by decide)

/-! ## Per-date aggregation (part_000 fetchData, lines 321-342) -/

/-- A fact row as selected by `fetchData`: the three numeric fields may be null. -/
structure FactRow where
  date : String
  country : String
  chain : String
  category : String
  total_requests : Option ℚ
  unique_users : Option ℚ
  tx_volume_usd : Option ℚ
deriving DecidableEq, Repr

/-- JS `x || 0` on a possibly-null numeric field. -/
def orZero (o : Option ℚ) : ℚ := o.getD 0

/-- The numeric sums of one aggregation bucket (`api_calls` receives
`total_requests`, as in the source). The metadata fields the source also stores
(date, chain, display country/category) are constants per bucket and irrelevant to
the sums. -/
structure Bucket where
  api_calls : ℚ
  tx_volume_usd : ℚ
  unique_users : ℚ
deriving DecidableEq, Repr

/-- The freshly initialised bucket: all three sums are 0. -/
def zeroB : Bucket := ⟨0, 0, 0⟩

/-- Source: `agg[dateKey].api_calls += row.total_requests || 0;
agg[dateKey].tx_volume_usd += row.tx_volume_usd || 0;
agg[dateKey].unique_users += row.unique_users || 0`. -/
def addRow (b : Bucket) (r : FactRow) : Bucket :=
  ⟨b.api_calls + orZero r.total_requests,
   b.tx_volume_usd + orZero r.tx_volume_usd,
   b.unique_users + orZero r.unique_users⟩

/-- JS object lookup on the aggregation map. -/
def lookupB : List (String × Bucket) → String → Option Bucket
  | [], _ => none
  | (k', b) :: t, k => if k' = k then some b else lookupB t k

/-- Adds a row's values into the (first) entry with the given key. -/
def updateB : List (String × Bucket) → String → FactRow → List (String × Bucket)
  | [], _, _ => []
  | (k', b) :: t, k, r => if k' = k then (k', addRow b r) :: t else (k', b) :: updateB t k r

/-- One iteration of `data.forEach(row => ...)`: create the zero bucket for the
row's date if absent, then add the row's three (null-defaulted) values. -/
def aggStep (m : List (String × Bucket)) (r : FactRow) : List (String × Bucket) :=
  match lookupB m r.date with
  | some _ => updateB m r.date r
  | none => updateB (m ++ [(r.date, zeroB)]) r.date r

/-- The whole `fetchData` aggregation pass over the (already filtered) rows. -/
def aggregateByDate (rows : List FactRow) : List (String × Bucket) :=
  rows.foldl aggStep []

/-- The bucket stored for a key, defaulting to the zero bucket. -/
def bucketOf (m : List (String × Bucket)) (k : String) : Bucket :=
  (lookupB m k).getD zeroB

theorem lookupB_updateB_self (m : List (String × Bucket)) (k : String) (r : FactRow)
    (b : Bucket) (h : lookupB m k = some b) :
    lookupB (updateB m k r) k = some (addRow b r) := by
  induction m with
  | nil => simp [lookupB] at h
  | cons kv t ih =>
      obtain ⟨k', b'⟩ := kv
      rw [lookupB] at h
      rw [updateB]
      by_cases hk : k' = k
      · rw [if_pos hk] at h ⊢
        rw [lookupB, if_pos hk]
        rw [Option.some_inj] at h
        rw [h]
      · rw [if_neg hk] at h ⊢
        rw [lookupB, if_neg hk]
        exact ih h

theorem lookupB_updateB_ne (m : List (String × Bucket)) (k' k : String) (r : FactRow)
    (h : k' ≠ k) : lookupB (updateB m k' r) k = lookupB m k := by
  induction m with
  | nil => rfl
  | cons kv t ih =>
      obtain ⟨k2, b2⟩ := kv
      rw [updateB]
      by_cases hk : k2 = k'
      · rw [if_pos hk, lookupB, lookupB, if_neg (hk ▸ h), if_neg (hk ▸ h)]
      · rw [if_neg hk, lookupB, lookupB]
        by_cases hk2 : k2 = k
        · rw [if_pos hk2, if_pos hk2]
        · rw [if_neg hk2, if_neg hk2]
          exact ih

theorem lookupB_append_single (m : List (String × Bucket)) (k' k : String) (b : Bucket)
    (h : lookupB m k = none) :
    lookupB (m ++ [(k', b)]) k = if k' = k then some b else none := by
  induction m with
  | nil => rfl
  | cons kv t ih =>
      obtain ⟨k2, b2⟩ := kv
      rw [lookupB] at h
      rw [List.cons_append, lookupB]
      by_cases hk2 : k2 = k
      · rw [if_pos hk2] at h
        exact absurd h (by simp)
      · rw [if_neg hk2] at h ⊢
        exact ih h

theorem lookupB_append_ne (m : List (String × Bucket)) (k' k : String) (b : Bucket)
    (h : k' ≠ k) : lookupB (m ++ [(k', b)]) k = lookupB m k := by
  induction m with
  | nil => simp [lookupB, if_neg h]
  | cons kv t ih =>
      obtain ⟨k2, b2⟩ := kv
      rw [List.cons_append, lookupB, lookupB]
      by_cases hk2 : k2 = k
      · rw [if_pos hk2, if_pos hk2]
      · rw [if_neg hk2, if_neg hk2]
        exact ih

theorem lookupB_aggStep (m : List (String × Bucket)) (r : FactRow) (k : String) :
    lookupB (aggStep m r) k =
      if r.date = k then some (addRow (bucketOf m k) r) else lookupB m k := by
  rw [aggStep]
  by_cases hdk : r.date = k
  · subst hdk
    rw [if_pos rfl]
    cases hm : lookupB m r.date with
    | some b =>
        rw [lookupB_updateB_self m r.date r b hm, bucketOf, hm, Option.getD_some]
    | none =>
        have happ := lookupB_append_single m r.date r.date zeroB hm
        rw [if_pos rfl] at happ
        rw [lookupB_updateB_self _ r.date r zeroB happ, bucketOf, hm, Option.getD_none]
  · rw [if_neg hdk]
    cases hm : lookupB m r.date with
    | some b => exact lookupB_updateB_ne m r.date k r hdk
    | none =>
        rw [lookupB_updateB_ne _ r.date k r hdk]
        exact lookupB_append_ne m r.date k zeroB hdk

theorem lookupB_foldl_aggStep (rows : List FactRow) (m : List (String × Bucket))
    (k : String) :
    lookupB (rows.foldl aggStep m) k =
      (rows.filter (fun r => r.date == k)).foldl
        (fun ob r => some (addRow (ob.getD zeroB) r)) (lookupB m k) := by
  induction rows generalizing m with
  | nil => rfl
  | cons r t ih =>
      rw [List.foldl_cons, ih, List.filter_cons]
      by_cases hdk : r.date = k
      · rw [if_pos (by simpa using hdk), List.foldl_cons,
          lookupB_aggStep m r k, if_pos hdk, bucketOf]
      · rw [if_neg (by simpa using hdk), lookupB_aggStep m r k, if_neg hdk]

theorem foldl_stepSome (rs : List FactRow) (b : Bucket) :
    rs.foldl (fun ob r => some (addRow (ob.getD zeroB) r)) (some b)
      = some (rs.foldl addRow b) := by
  induction rs generalizing b with
  | nil => rfl
  | cons r t ih => rw [List.foldl_cons, List.foldl_cons, Option.getD_some, ih]

theorem foldl_addRow_eq (rs : List FactRow) (b : Bucket) :
    rs.foldl addRow b =
      ⟨b.api_calls + (rs.map (fun r => orZero r.total_requests)).sum,
       b.tx_volume_usd + (rs.map (fun r => orZero r.tx_volume_usd)).sum,
       b.unique_users + (rs.map (fun r => orZero r.unique_users)).sum⟩ := by
  induction rs generalizing b with
  | nil => cases b; simp
  | cons r t ih =>
      rw [List.foldl_cons, ih]
      simp only [addRow, List.map_cons, List.sum_cons, Bucket.mk.injEq]
      exact ⟨by ring, by ring, by ring⟩

/-- Total of one numeric field over every bucket of the aggregation map. -/
def sumField (m : List (String × Bucket)) (f : Bucket → ℚ) : ℚ :=
  (m.map (fun kv => f kv.2)).sum

theorem sumField_updateB (m : List (String × Bucket)) (k : String) (r : FactRow)
    (f : Bucket → ℚ) (g : FactRow → ℚ) (hfg : ∀ b r2, f (addRow b r2) = f b + g r2) :
    sumField (updateB m k r) f
      = sumField m f + (if (lookupB m k).isSome then g r else 0) := by
  induction m with
  | nil => simp [updateB, lookupB, sumField]
  | cons kv t ih =>
      obtain ⟨k2, b2⟩ := kv
      rw [updateB, lookupB]
      by_cases hk2 : k2 = k
      · rw [if_pos hk2, if_pos hk2]
        simp only [sumField, List.map_cons, List.sum_cons, hfg, Option.isSome_some, if_true]
        ring
      · rw [if_neg hk2, if_neg hk2]
        simp only [sumField, List.map_cons, List.sum_cons] at ih ⊢
        rw [ih]
        ring

theorem sumField_aggStep (m : List (String × Bucket)) (r : FactRow)
    (f : Bucket → ℚ) (g : FactRow → ℚ) (hfg : ∀ b r2, f (addRow b r2) = f b + g r2)
    (hz : f zeroB = 0) :
    sumField (aggStep m r) f = sumField m f + g r := by
  rw [aggStep]
  cases hm : lookupB m r.date with
  | some b =>
      rw [sumField_updateB m r.date r f g hfg, hm]
      simp
  | none =>
      rw [sumField_updateB _ r.date r f g hfg]
      have happ := lookupB_append_single m r.date r.date zeroB hm
      rw [if_pos rfl] at happ
      rw [happ]
      simp only [Option.isSome_some, if_true, sumField, List.map_append, List.sum_append,
        List.map_cons, List.map_nil, List.sum_cons, List.sum_nil, hz]
      ring

theorem sumField_foldl (rows : List FactRow) (m : List (String × Bucket))
    (f : Bucket → ℚ) (g : FactRow → ℚ) (hfg : ∀ b r2, f (addRow b r2) = f b + g r2)
    (hz : f zeroB = 0) :
    sumField (rows.foldl aggStep m) f = sumField m f + (rows.map g).sum := by
  induction rows generalizing m with
  | nil => simp
  | cons r t ih =>
      rw [List.foldl_cons, ih, sumField_aggStep m r f g hfg hz, List.map_cons,
        List.sum_cons]
      ring

/-- C1: the per-date aggregation groups rows by their date key, summing the three
numeric fields with null treated as 0: a key has a bucket exactly when some row
carries that date, each bucket's sums range over exactly the rows with the bucket's
key, and summing any field over all buckets recovers the sum over all rows — no row
double-counted and none dropped. -/
theorem c1_aggregate_by_date (rows : List FactRow) (k : String) :
    (lookupB (aggregateByDate rows) k = none ↔
      rows.filter (fun r => r.date == k) = []) ∧
    bucketOf (aggregateByDate rows) k =
      ⟨((rows.filter (fun r => r.date == k)).map (fun r => orZero r.total_requests)).sum,
       ((rows.filter (fun r => r.date == k)).map (fun r => orZero r.tx_volume_usd)).sum,
       ((rows.filter (fun r => r.date == k)).map (fun r => orZero r.unique_users)).sum⟩ ∧
    sumField (aggregateByDate rows) Bucket.api_calls
      = (rows.map (fun r => orZero r.total_requests)).sum ∧
    sumField (aggregateByDate rows) Bucket.tx_volume_usd
      = (rows.map (fun r => orZero r.tx_volume_usd)).sum ∧
    sumField (aggregateByDate rows) Bucket.unique_users
      = (rows.map (fun r => orZero r.unique_users)).sum := by
  have hbase : lookupB ([] : List (String × Bucket)) k = none := rfl
  have hmain := lookupB_foldl_aggStep rows [] k
  rw [hbase] at hmain
  refine ⟨?_, ?_, ?_, ?_, ?_⟩
  · rw [aggregateByDate, hmain]
    cases hf : rows.filter (fun r => r.date == k) with
    | nil => simp
    | cons r rs =>
        rw [List.foldl_cons, Option.getD_none, foldl_stepSome]
        simp
  · rw [bucketOf, aggregateByDate, hmain]
    cases hf : rows.filter (fun r => r.date == k) with
    | nil => simp [zeroB]
    | cons r rs =>
        rw [List.foldl_cons, Option.getD_none, foldl_stepSome, Option.getD_some,
          foldl_addRow_eq]
        simp only [addRow, zeroB, List.map_cons, List.sum_cons, Bucket.mk.injEq]
        exact ⟨by ring, by ring, by ring⟩
  · rw [aggregateByDate]
    simpa [sumField] using sumField_foldl rows [] Bucket.api_calls
      (fun r => orZero r.total_requests) (fun b r2 => rfl) rfl
  · rw [aggregateByDate]
    simpa [sumField] using sumField_foldl rows [] Bucket.tx_volume_usd
      (fun r => orZero r.tx_volume_usd) (fun b r2 => rfl) rfl
  · rw [aggregateByDate]
    simpa [sumField] using sumField_foldl rows [] Bucket.unique_users
      (fun r => orZero r.unique_users) (fun b r2 => rfl) rfl

end AlchemyDash
